/-
Verification of the Sudoku engine in `src/App.vue`.

The grid is modelled as a total function `Fin 9 → Fin 9 → Nat` (the source
uses a 9×9 number matrix with 0 meaning empty; all accesses are in bounds,
the optional-chaining guards in the source never fire).  Randomness — the
shuffled digit order in `fillGrid`, the random cell picks in
`removeNumbers` and `useHint` — is modelled by explicit oracle parameters,
and the claims quantify over all oracles of the right shape.
-/
import Mathlib

set_option maxRecDepth 8000

namespace Sudoku

/-- A 9×9 grid of numbers; 0 means empty. -/
def Grid : Type := Fin 9 → Fin 9 → Nat

instance : DecidableEq Grid := by unfold Grid; infer_instance

/-- Write value `v` at cell `(r, c)` (the in-place `grid[r][c] = v`). -/
def setCell (g : Grid) (r c : Fin 9) (v : Nat) : Grid :=
  fun r' c' => if r' = r ∧ c' = c then v else g r' c'

/-- The all-zero grid that `generateSudoku` starts from. -/
def emptyGrid : Grid := fun _ _ => 0

/-- All 81 cells in row-major order (the traversal order of the nested
`for` loops in the source). -/
def allCells : List (Fin 9 × Fin 9) :=
  (List.finRange 9).flatMap fun r => (List.finRange 9).map fun c => (r, c)

/-- The cell `(r - r % 3 + i)` of the 3×3 block: the source computes
`startRow = row - row % 3` and scans `startRow + i` for `i < 3`. -/
def blockCell (r : Fin 9) (i : Fin 3) : Fin 9 :=
  ⟨r.val - r.val % 3 + i.val, by
    have h1 := r.isLt
    have h2 := i.isLt
    omega⟩

/-- Source `isValid(grid, row, col, num)`: `num` may go at
`(row, col)` iff it appears nowhere in the row, the column, or the 3×3
block containing the cell. -/
def isValid (g : Grid) (row col : Fin 9) (num : Nat) : Bool :=
  !((List.finRange 9).any fun x => g row x == num) &&
  !((List.finRange 9).any fun x => g x col == num) &&
  !((List.finRange 3).any fun i => (List.finRange 3).any fun j =>
      g (blockCell row i) (blockCell col j) == num)

/-- The first empty cell in row-major order (the scan in `fillGrid`). -/
def findEmpty (g : Grid) : Option (Fin 9 × Fin 9) :=
  allCells.find? fun p => g p.1 p.2 == 0

/-- The inner candidate loop of `fillGrid`: try each number of `ns` at the
empty cell `(r, c)`; on a successful recursive call propagate its state,
on a failed one reset the cell to 0 and continue. `F` is the recursive
call to `fillGrid`. -/
def tryNums (F : Grid → Bool × Grid) (r c : Fin 9) :
    List Nat → Grid → Bool × Grid
  | [], g => (false, g)
  | n :: ns, g =>
    if isValid g r c n then
      let res := F (setCell g r c n)
      if res.1 then res
      else tryNums F r c ns (setCell res.2 r c 0)
    else tryNums F r c ns g

/-- Fuel-indexed `fillGrid`.  `ord` is the shuffle oracle: at each call the
source shuffles `[1..9]` with a random comparator, which yields some
permutation of `[1..9]`; since the search node is determined by the grid
state, an oracle indexed by the grid covers every execution.  Fuel only
bounds the recursion depth; depth `numZeros g + 1` always suffices. -/
def fillGridF (ord : Grid → List Nat) : Nat → Grid → Bool × Grid
  | 0, g => (false, g)
  | fuel + 1, g =>
    match findEmpty g with
    | none => (true, g)
    | some (r, c) => tryNums (fillGridF ord fuel) r c (ord g) g

/-- The entry point `fillGrid` on a 9×9 grid: recursion depth is bounded by the 81 cells,
so fuel 82 is always sufficient. -/
def fillGrid (ord : Grid → List Nat) (g : Grid) : Bool × Grid :=
  fillGridF ord 82 g

/-- Number of empty cells of the grid. -/
def numZeros (g : Grid) : Nat :=
  (Finset.univ.filter fun p : Fin 9 × Fin 9 => g p.1 p.2 = 0).card

example : numZeros emptyGrid = 81 := by decide
example : findEmpty emptyGrid = some (0, 0) := by decide
example : isValid emptyGrid 0 0 0 = false := by decide
example : isValid emptyGrid 0 0 5 = true := by decide

/-! ### Basic lemmas about cells and the empty-cell scan -/

theorem setCell_same (g : Grid) (r c : Fin 9) (v : Nat) :
    setCell g r c v r c = v := by
  simp [setCell]

theorem setCell_other (g : Grid) (r c : Fin 9) (v : Nat) (r' c' : Fin 9)
    (h : ¬(r' = r ∧ c' = c)) : setCell g r c v r' c' = g r' c' := by
  simp [setCell, h]

theorem setCell_setCell_cancel (g : Grid) (r c : Fin 9) (v : Nat)
    (h : g r c = 0) : setCell (setCell g r c v) r c 0 = g := by
  funext r' c'
  by_cases hc : r' = r ∧ c' = c
  · obtain ⟨rfl, rfl⟩ := hc
    simp [setCell, h]
  · simp [setCell, hc]

theorem mem_allCells (p : Fin 9 × Fin 9) : p ∈ allCells := by
  obtain ⟨r, c⟩ := p
  simp [allCells]

theorem findEmpty_some {g : Grid} {r c : Fin 9}
    (h : findEmpty g = some (r, c)) : g r c = 0 := by
  have := List.find?_some h
  simpa using this

theorem findEmpty_none {g : Grid} (h : findEmpty g = none) (r c : Fin 9) :
    g r c ≠ 0 := by
  have := List.find?_eq_none.mp h (r, c) (mem_allCells (r, c))
  simpa using this

/-! ### Frame property of the backtracking search (C10)

Every cell that is non-zero when `fillGrid` is entered keeps its value in
the final state, and a failing call restores the grid exactly. -/

/-- Predicate: `F` restores the grid on failure and preserves non-zero cells. -/
def Frames (F : Grid → Bool × Grid) : Prop :=
  ∀ g : Grid,
    ((F g).1 = false → (F g).2 = g) ∧
    (∀ r c : Fin 9, g r c ≠ 0 → (F g).2 r c = g r c)

theorem tryNums_frames {F : Grid → Bool × Grid} (hF : Frames F)
    (r c : Fin 9) (ns : List Nat) :
    ∀ g : Grid, g r c = 0 →
      ((tryNums F r c ns g).1 = false → (tryNums F r c ns g).2 = g) ∧
      (∀ r' c' : Fin 9, g r' c' ≠ 0 →
        (tryNums F r c ns g).2 r' c' = g r' c') := by
  induction ns with
  | nil => intro g _; exact ⟨fun _ => rfl, fun _ _ _ => rfl⟩
  | cons n ns ih =>
    intro g hg
    simp only [tryNums]
    by_cases hv : isValid g r c n = true
    · simp only [hv, if_true]
      set g1 := setCell g r c n with hg1
      by_cases hs : (F g1).1 = true
      · simp only [hs, if_true]
        refine ⟨fun hfalse => by simp [hs] at hfalse, ?_⟩
        intro r' c' hnz
        have hne : ¬(r' = r ∧ c' = c) := by
          rintro ⟨rfl, rfl⟩; exact hnz hg
        have h1 : g1 r' c' = g r' c' := setCell_other g r c n r' c' hne
        have h2 := (hF g1).2 r' c' (by rw [h1]; exact hnz)
        rw [h2, h1]
      · simp only [hs, if_false]
        have hres : (F g1).2 = g1 := (hF g1).1 (by simpa using hs)
        have hback : setCell (F g1).2 r c 0 = g := by
          rw [hres, hg1, setCell_setCell_cancel g r c n hg]
        rw [hback]
        exact ih g hg
    · simp only [hv, if_false]
      exact ih g hg

theorem fillGridF_frames (ord : Grid → List Nat) (fuel : Nat) :
    Frames (fillGridF ord fuel) := by
  induction fuel with
  | zero => intro g; exact ⟨fun _ => rfl, fun _ _ _ => rfl⟩
  | succ fuel ih =>
    intro g
    simp only [fillGridF]
    cases hfe : findEmpty g with
    | none => exact ⟨fun h => by simp at h, fun _ _ _ => rfl⟩
    | some p =>
      obtain ⟨r, c⟩ := p
      have hg : g r c = 0 := findEmpty_some hfe
      exact tryNums_frames ih r c (ord g) g hg

/-! ### The Sudoku validity invariant -/

/-- Two indices lie in the same band of three (same 3×3-block row or
column). -/
def sameBlock (a b : Fin 9) : Prop := a.val / 3 = b.val / 3

instance (a b : Fin 9) : Decidable (sameBlock a b) := by
  unfold sameBlock; infer_instance

/-- Partial validity: all placed values are digits 1..9 and no row,
column, or 3×3 block holds the same value twice. -/
def Ok (g : Grid) : Prop :=
  (∀ r c, g r c ≠ 0 → 1 ≤ g r c ∧ g r c ≤ 9) ∧
  (∀ r c₁ c₂, c₁ ≠ c₂ → g r c₁ ≠ 0 → g r c₁ ≠ g r c₂) ∧
  (∀ r₁ r₂ c, r₁ ≠ r₂ → g r₁ c ≠ 0 → g r₁ c ≠ g r₂ c) ∧
  (∀ r₁ c₁ r₂ c₂, sameBlock r₁ r₂ → sameBlock c₁ c₂ →
    (r₁, c₁) ≠ (r₂, c₂) → g r₁ c₁ ≠ 0 → g r₁ c₁ ≠ g r₂ c₂)

/-- Every cell is filled. -/
def Complete (g : Grid) : Prop := ∀ r c : Fin 9, g r c ≠ 0

/-- Extension: `gs` agrees with `g` on every filled cell of `g`. -/
def Extends (g gs : Grid) : Prop := ∀ r c : Fin 9, g r c ≠ 0 → gs r c = g r c

instance (g : Grid) : Decidable (Ok g) := by
  unfold Ok
  refine @instDecidableAnd _ _ ?_
    (@instDecidableAnd _ _ ?_ (@instDecidableAnd _ _ ?_ ?_)) <;>
    infer_instance

instance (g : Grid) : Decidable (Complete g) := by
  unfold Complete; infer_instance

theorem ok_emptyGrid : Ok emptyGrid := by
  simp [Ok, emptyGrid]

theorem setCell_app (g : Grid) (r c : Fin 9) (v : Nat) (r' c' : Fin 9) :
    setCell g r c v r' c' = if r' = r ∧ c' = c then v else g r' c' := rfl

theorem isValid_iff (g : Grid) (row col : Fin 9) (num : Nat) :
    isValid g row col num = true ↔
      (∀ x, g row x ≠ num) ∧ (∀ x, g x col ≠ num) ∧
      (∀ i j : Fin 3, g (blockCell row i) (blockCell col j) ≠ num) := by
  simp [isValid, List.any_eq_true, beq_iff_eq, and_assoc]

theorem sameBlock_iff_blockCell (a b : Fin 9) :
    sameBlock a b ↔ ∃ i : Fin 3, blockCell a i = b := by
  revert a b; decide

theorem sameBlock_blockCell (a : Fin 9) (i : Fin 3) :
    sameBlock a (blockCell a i) := by
  revert a i; decide

theorem isValid_pos {g : Grid} {r c : Fin 9} {n : Nat}
    (h0 : g r c = 0) (hv : isValid g r c n = true) : 1 ≤ n := by
  have h := ((isValid_iff g r c n).mp hv).1 c
  omega

theorem ok_setCell {g : Grid} {r c : Fin 9} {n : Nat} (hg : Ok g)
    (h0 : g r c = 0) (hn9 : n ≤ 9) (hv : isValid g r c n = true) :
    Ok (setCell g r c n) := by
  obtain ⟨hrow, hcol, hblk⟩ := (isValid_iff g r c n).mp hv
  have hn1 : 1 ≤ n := isValid_pos h0 hv
  obtain ⟨hval, hR, hC, hBk⟩ := hg
  refine ⟨?_, ?_, ?_, ?_⟩
  · intro r' c' hnz
    simp only [setCell_app] at hnz ⊢
    split_ifs at hnz ⊢ with h
    · exact ⟨hn1, hn9⟩
    · exact hval r' c' hnz
  · intro r' c₁ c₂ hne h1
    simp only [setCell_app] at h1 ⊢
    split_ifs at h1 ⊢ with e1 e2 e2
    · exact absurd (e1.2.trans e2.2.symm) hne
    · rw [e1.1]
      exact fun h => hrow c₂ h.symm
    · rw [e2.1]
      exact hrow c₁
    · exact hR r' c₁ c₂ hne h1
  · intro r₁ r₂ c' hne h1
    simp only [setCell_app] at h1 ⊢
    split_ifs at h1 ⊢ with e1 e2 e2
    · exact absurd (e1.1.trans e2.1.symm) hne
    · rw [e1.2]
      exact fun h => hcol r₂ h.symm
    · rw [e2.2]
      exact hcol r₁
    · exact hC r₁ r₂ c' hne h1
  · intro r₁ c₁ r₂ c₂ hb1 hb2 hne h1
    simp only [setCell_app] at h1 ⊢
    split_ifs at h1 ⊢ with e1 e2 e2
    · exact absurd (by rw [e1.1, e1.2, e2.1, e2.2]) hne
    · have hb1' : sameBlock r r₂ := by rw [← e1.1]; exact hb1
      have hb2' : sameBlock c c₂ := by rw [← e1.2]; exact hb2
      obtain ⟨i, hi⟩ := (sameBlock_iff_blockCell r r₂).mp hb1'
      obtain ⟨j, hj⟩ := (sameBlock_iff_blockCell c c₂).mp hb2'
      rw [← hi, ← hj]
      exact fun h => hblk i j h.symm
    · have hb1' : sameBlock r r₁ := by
        unfold sameBlock at *; rw [← e2.1]; omega
      have hb2' : sameBlock c c₁ := by
        unfold sameBlock at *; rw [← e2.2]; omega
      obtain ⟨i, hi⟩ := (sameBlock_iff_blockCell r r₁).mp hb1'
      obtain ⟨j, hj⟩ := (sameBlock_iff_blockCell c c₁).mp hb2'
      rw [← hi, ← hj]
      exact hblk i j
    · exact hBk r₁ c₁ r₂ c₂ hb1 hb2 hne h1

/-! ### Counting empty cells -/

theorem numZeros_setCell {g : Grid} {r c : Fin 9} {n : Nat}
    (h0 : g r c = 0) (hn : n ≠ 0) :
    numZeros (setCell g r c n) + 1 = numZeros g := by
  unfold numZeros
  have hset : (Finset.univ.filter
      fun p : Fin 9 × Fin 9 => setCell g r c n p.1 p.2 = 0) =
      (Finset.univ.filter fun p : Fin 9 × Fin 9 => g p.1 p.2 = 0).erase
        (r, c) := by
    ext ⟨pr, pc⟩
    simp only [Finset.mem_filter, Finset.mem_erase, Finset.mem_univ,
      true_and, setCell_app, ne_eq, Prod.mk.injEq]
    constructor
    · intro h
      split_ifs at h with he
      · exact absurd h hn
      · exact ⟨he, h⟩
    · rintro ⟨hne, hz⟩
      rw [if_neg hne]
      exact hz
  rw [hset]
  have hmem : (r, c) ∈ Finset.univ.filter
      fun p : Fin 9 × Fin 9 => g p.1 p.2 = 0 := by
    simp [h0]
  rw [Finset.card_erase_of_mem hmem]
  have := Finset.card_pos.mpr ⟨(r, c), hmem⟩
  omega

/-! ### Soundness: a successful search yields a complete valid grid -/

theorem tryNums_success {F : Grid → Bool × Grid} (hF : Frames F)
    (r c : Fin 9) (ns : List Nat) :
    ∀ g : Grid, g r c = 0 → (tryNums F r c ns g).1 = true →
      ∃ n ∈ ns, isValid g r c n = true ∧
        F (setCell g r c n) = tryNums F r c ns g ∧
        (F (setCell g r c n)).1 = true := by
  induction ns with
  | nil => intro g _ h; simp [tryNums] at h
  | cons n ns ih =>
    intro g hg h
    simp only [tryNums] at h ⊢
    by_cases hv : isValid g r c n = true
    · simp only [hv, if_true] at h ⊢
      by_cases hs : (F (setCell g r c n)).1 = true
      · exact ⟨n, List.mem_cons_self n ns, hv, by simp [hs], hs⟩
      · rw [if_neg hs] at h ⊢
        have hres : (F (setCell g r c n)).2 = setCell g r c n :=
          (hF _).1 (by simpa using hs)
        rw [hres, setCell_setCell_cancel g r c n hg] at h ⊢
        obtain ⟨m, hm, hmv, hme, hms⟩ := ih g hg h
        exact ⟨m, List.mem_cons_of_mem n hm, hmv, hme, hms⟩
    · simp only [hv, if_false] at h ⊢
      obtain ⟨m, hm, hmv, hme, hms⟩ := ih g hg h
      exact ⟨m, List.mem_cons_of_mem n hm, hmv, hme, hms⟩

theorem fillGridF_sound {ord : Grid → List Nat}
    (hord : ∀ g : Grid, ∀ n ∈ ord g, n ≤ 9) :
    ∀ fuel : Nat, ∀ g : Grid, Ok g → (fillGridF ord fuel g).1 = true →
      Ok (fillGridF ord fuel g).2 ∧ Complete (fillGridF ord fuel g).2 := by
  intro fuel
  induction fuel with
  | zero => intro g _ h; simp [fillGridF] at h
  | succ fuel ih =>
    intro g hOk h
    simp only [fillGridF] at h ⊢
    cases hfe : findEmpty g with
    | none => exact ⟨hOk, findEmpty_none hfe⟩
    | some p =>
      obtain ⟨r, c⟩ := p
      rw [hfe] at h
      have hg : g r c = 0 := findEmpty_some hfe
      obtain ⟨n, hmem, hv, heq, hs⟩ :=
        tryNums_success (fillGridF_frames ord fuel) r c (ord g) g hg h
      have hOk' : Ok (setCell g r c n) :=
        ok_setCell hOk hg (hord g n hmem) hv
      have hres := ih (setCell g r c n) hOk' hs
      rw [heq] at hres
      exact hres

/-! ### Completeness: a grid that extends to a full solution is solved -/

theorem gs_ne_zero {gs : Grid} (hComp : Complete gs) (r c : Fin 9) :
    gs r c ≠ 0 := hComp r c

theorem isValid_target {g gs : Grid} {r c : Fin 9}
    (hext : Extends g gs) (hOk : Ok gs) (hComp : Complete gs)
    (h0 : g r c = 0) : isValid g r c (gs r c) = true := by
  obtain ⟨hval, hR, hC, hBk⟩ := hOk
  rw [isValid_iff]
  refine ⟨?_, ?_, ?_⟩
  · intro x
    by_cases hz : g r x = 0
    · rw [hz]; exact fun h => hComp r c h.symm
    · rw [← hext r x hz]
      have hxc : x ≠ c := by rintro rfl; exact hz h0
      exact hR r x c hxc (hComp r x)
  · intro x
    by_cases hz : g x c = 0
    · rw [hz]; exact fun h => hComp r c h.symm
    · rw [← hext x c hz]
      have hxr : x ≠ r := by rintro rfl; exact hz h0
      exact hC x r c hxr (hComp x c)
  · intro i j
    by_cases hz : g (blockCell r i) (blockCell c j) = 0
    · rw [hz]; exact fun h => hComp r c h.symm
    · rw [← hext _ _ hz]
      have hne : (blockCell r i, blockCell c j) ≠ (r, c) := by
        intro he
        rw [Prod.mk.injEq] at he
        rw [he.1, he.2] at hz
        exact hz h0
      have hb1 : sameBlock (blockCell r i) r :=
        (sameBlock_blockCell r i).symm
      have hb2 : sameBlock (blockCell c j) c :=
        (sameBlock_blockCell c j).symm
      exact hBk _ _ r c hb1 hb2 hne (hComp _ _)

theorem tryNums_reaches {F : Grid → Bool × Grid} (hF : Frames F)
    (r c : Fin 9) {v : Nat} (ns : List Nat) :
    ∀ g : Grid, g r c = 0 → v ∈ ns → isValid g r c v = true →
      (F (setCell g r c v)).1 = true → (tryNums F r c ns g).1 = true := by
  induction ns with
  | nil => intro g _ hmem; exact absurd hmem (List.not_mem_nil v)
  | cons n ns ih =>
    intro g hg hmem hv hsucc
    simp only [tryNums]
    by_cases hvn : isValid g r c n = true
    · simp only [hvn, if_true]
      by_cases hs : (F (setCell g r c n)).1 = true
      · simp [hs]
      · rw [if_neg hs]
        have hres : (F (setCell g r c n)).2 = setCell g r c n :=
          (hF _).1 (by simpa using hs)
        rw [hres, setCell_setCell_cancel g r c n hg]
        have hnv : n ≠ v := by rintro rfl; exact hs hsucc
        have hmem' : v ∈ ns := by
          cases List.mem_cons.mp hmem with
          | inl h => exact absurd h.symm hnv
          | inr h => exact h
        exact ih g hg hmem' hv hsucc
    · simp only [hvn, if_false]
      have hnv : n ≠ v := by rintro rfl; exact hvn hv
      have hmem' : v ∈ ns := by
        cases List.mem_cons.mp hmem with
        | inl h => exact absurd h.symm hnv
        | inr h => exact h
      exact ih g hg hmem' hv hsucc

theorem mem_oneToNine {n : Nat} (h1 : 1 ≤ n) (h9 : n ≤ 9) :
    n ∈ ([1, 2, 3, 4, 5, 6, 7, 8, 9] : List Nat) := by
  interval_cases n <;> simp

theorem fillGridF_complete {ord : Grid → List Nat} {gs : Grid}
    (hperm : ∀ g : Grid, (ord g).Perm [1, 2, 3, 4, 5, 6, 7, 8, 9])
    (hOk : Ok gs) (hComp : Complete gs) :
    ∀ fuel : Nat, ∀ g : Grid, numZeros g < fuel → Extends g gs →
      (fillGridF ord fuel g).1 = true := by
  intro fuel
  induction fuel with
  | zero => intro g h; omega
  | succ fuel ih =>
    intro g hfuel hext
    simp only [fillGridF]
    cases hfe : findEmpty g with
    | none => rfl
    | some p =>
      obtain ⟨r, c⟩ := p
      have hg : g r c = 0 := findEmpty_some hfe
      set v := gs r c with hv
      have hvmem : v ∈ ord g := by
        rw [List.Perm.mem_iff (hperm g)]
        obtain ⟨h1, h9⟩ := hOk.1 r c (hComp r c)
        exact mem_oneToNine h1 h9
      have hvalid : isValid g r c v = true :=
        isValid_target hext hOk hComp hg
      have hzset : numZeros (setCell g r c v) + 1 = numZeros g :=
        numZeros_setCell hg (hComp r c)
      have hext' : Extends (setCell g r c v) gs := by
        intro r' c' _
        by_cases he : r' = r ∧ c' = c
        · obtain ⟨rfl, rfl⟩ := he
          rw [setCell_same]
        · rw [setCell_other _ _ _ _ _ _ he]
          by_cases hz : g r' c' = 0
          · exfalso
            have := setCell_other g r c v r' c' he
            simp_all
          · exact hext r' c' hz
      have hsucc : (fillGridF ord fuel (setCell g r c v)).1 = true :=
        ih (setCell g r c v) (by omega) hext'
      exact tryNums_reaches (fillGridF_frames ord fuel) r c (ord g) g hg
        hvmem hvalid hsucc

/-! ### Fuel irrelevance: enough fuel always gives the same run -/

theorem tryNums_congr {F₁ F₂ : Grid → Bool × Grid} (hF : Frames F₁)
    (r c : Fin 9) (ns : List Nat) :
    ∀ g : Grid, g r c = 0 →
      (∀ g' : Grid, numZeros g' < numZeros g → F₁ g' = F₂ g') →
      tryNums F₁ r c ns g = tryNums F₂ r c ns g := by
  induction ns with
  | nil => intro g _ _; rfl
  | cons n ns ih =>
    intro g hg hagree
    simp only [tryNums]
    by_cases hv : isValid g r c n = true
    · simp only [hv, if_true]
      have hn0 : n ≠ 0 := by
        have := isValid_pos hg hv
        omega
      have hless : numZeros (setCell g r c n) < numZeros g := by
        have := numZeros_setCell hg hn0
        omega
      rw [← hagree (setCell g r c n) hless]
      by_cases hs : (F₁ (setCell g r c n)).1 = true
      · simp [hs]
      · rw [if_neg hs, if_neg hs]
        have hres : (F₁ (setCell g r c n)).2 = setCell g r c n :=
          (hF _).1 (by simpa using hs)
        rw [hres, setCell_setCell_cancel g r c n hg]
        exact ih g hg hagree
    · simp only [hv, if_false]
      exact ih g hg hagree

theorem fillGridF_det (ord : Grid → List Nat) :
    ∀ fuel₁ fuel₂ g, numZeros g < fuel₁ → numZeros g < fuel₂ →
      fillGridF ord fuel₁ g = fillGridF ord fuel₂ g := by
  intro fuel₁
  induction fuel₁ with
  | zero => intro fuel₂ g h; omega
  | succ fuel₁ ih =>
    intro fuel₂ g h1 h2
    cases fuel₂ with
    | zero => omega
    | succ fuel₂ =>
      simp only [fillGridF]
      cases hfe : findEmpty g with
      | none => rfl
      | some p =>
        obtain ⟨r, c⟩ := p
        have hg : g r c = 0 := findEmpty_some hfe
        exact tryNums_congr (fillGridF_frames ord fuel₁) r c (ord g) g hg
          (fun g' hlt => ih fuel₂ g' (by omega) (by omega))

/-! ### Rows, columns and blocks as value lists -/

/-- The values of row `r`, in column order. -/
def rowList (g : Grid) (r : Fin 9) : List Nat :=
  (List.finRange 9).map (g r)

/-- The values of column `c`, in row order. -/
def colList (g : Grid) (c : Fin 9) : List Nat :=
  (List.finRange 9).map fun r => g r c

/-- The 9 cells of the 3×3 block with block row `br` and block column
`bc`. -/
def blockCells (br bc : Fin 3) : List (Fin 9 × Fin 9) :=
  (List.finRange 3).flatMap fun i => (List.finRange 3).map fun j =>
    (⟨3 * br.val + i.val, by omega⟩, ⟨3 * bc.val + j.val, by omega⟩)

/-- The values of the 3×3 block `(br, bc)`. -/
def blockList (g : Grid) (br bc : Fin 3) : List Nat :=
  (blockCells br bc).map fun p => g p.1 p.2

theorem blockCells_nodup : ∀ br bc : Fin 3, (blockCells br bc).Nodup := by
  decide

theorem blockCells_sameBlock :
    ∀ br bc : Fin 3, ∀ p ∈ blockCells br bc, ∀ q ∈ blockCells br bc,
      sameBlock p.1 q.1 ∧ sameBlock p.2 q.2 := by
  decide

theorem perm_oneToNine {l : List Nat} (hlen : l.length = 9)
    (hmem : ∀ x ∈ l, 1 ≤ x ∧ x ≤ 9) (hnd : l.Nodup) :
    l.Perm [1, 2, 3, 4, 5, 6, 7, 8, 9] := by
  have hnd9 : ([1, 2, 3, 4, 5, 6, 7, 8, 9] : List Nat).Nodup := by decide
  apply List.perm_of_nodup_nodup_toFinset_eq hnd hnd9
  have hsub : l.toFinset ⊆ ([1, 2, 3, 4, 5, 6, 7, 8, 9] : List Nat).toFinset := by
    intro x hx
    rw [List.mem_toFinset] at hx ⊢
    obtain ⟨h1, h9⟩ := hmem x hx
    exact mem_oneToNine h1 h9
  have hc1 : l.toFinset.card = 9 := by
    rw [List.toFinset_card_of_nodup hnd, hlen]
  have hc2 : ([1, 2, 3, 4, 5, 6, 7, 8, 9] : List Nat).toFinset.card = 9 := by
    decide
  exact Finset.eq_of_subset_of_card_le hsub (by omega)

theorem rowList_perm {g : Grid} (hOk : Ok g) (hComp : Complete g)
    (r : Fin 9) : (rowList g r).Perm [1, 2, 3, 4, 5, 6, 7, 8, 9] := by
  apply perm_oneToNine
  · simp [rowList]
  · intro x hx
    simp only [rowList, List.mem_map] at hx
    obtain ⟨c, -, rfl⟩ := hx
    exact hOk.1 r c (hComp r c)
  · apply List.Nodup.map_on _ (List.nodup_finRange 9)
    intro c₁ _ c₂ _ heq
    by_contra hne
    exact hOk.2.1 r c₁ c₂ hne (hComp r c₁) heq

theorem colList_perm {g : Grid} (hOk : Ok g) (hComp : Complete g)
    (c : Fin 9) : (colList g c).Perm [1, 2, 3, 4, 5, 6, 7, 8, 9] := by
  apply perm_oneToNine
  · simp [colList]
  · intro x hx
    simp only [colList, List.mem_map] at hx
    obtain ⟨r, -, rfl⟩ := hx
    exact hOk.1 r c (hComp r c)
  · apply List.Nodup.map_on _ (List.nodup_finRange 9)
    intro r₁ _ r₂ _ heq
    by_contra hne
    exact hOk.2.2.1 r₁ r₂ c hne (hComp r₁ c) heq

theorem blockCells_length : ∀ br bc : Fin 3,
    (blockCells br bc).length = 9 := by
  decide

theorem blockList_perm {g : Grid} (hOk : Ok g) (hComp : Complete g)
    (br bc : Fin 3) : (blockList g br bc).Perm [1, 2, 3, 4, 5, 6, 7, 8, 9] := by
  apply perm_oneToNine
  · rw [blockList, List.length_map]
    exact blockCells_length br bc
  · intro x hx
    simp only [blockList, List.mem_map] at hx
    obtain ⟨p, -, rfl⟩ := hx
    exact hOk.1 p.1 p.2 (hComp p.1 p.2)
  · apply List.Nodup.map_on _ (blockCells_nodup br bc)
    intro p hp q hq heq
    by_contra hne
    obtain ⟨hb1, hb2⟩ := blockCells_sameBlock br bc p hp q hq
    have hpq : (p.1, p.2) ≠ (q.1, q.2) := by
      intro h
      rw [Prod.mk.injEq] at h
      exact hne (Prod.ext h.1 h.2)
    exact hOk.2.2.2 p.1 p.2 q.1 q.2 hb1 hb2 hpq (hComp p.1 p.2) heq

/-- A concrete complete valid grid (the shifted row pattern), used as the
completion target of the all-zero grid. -/
def solGrid : Grid :=
  fun r c => (3 * (r.val % 3) + r.val / 3 + c.val) % 9 + 1

theorem solGrid_ok : Ok solGrid := by decide

theorem solGrid_complete : Complete solGrid := by decide

theorem numZeros_of_allZero {g : Grid} (h0 : ∀ r c, g r c = 0) :
    numZeros g = 81 := by
  have : g = emptyGrid := funext fun r => funext fun c => h0 r c
  rw [this]
  decide

theorem le_nine_of_mem :
    ∀ n ∈ ([1, 2, 3, 4, 5, 6, 7, 8, 9] : List Nat), n ≤ 9 := by decide

/-- C1: on an all-zero grid the backtracking fill terminates (stabilises
for every sufficient recursion fuel), returns `true`, and the resulting
grid has every row, column and 3×3 block a permutation of 1..9, for every
shuffle oracle producing permutations of `[1..9]`. -/
theorem fillGrid_allZero_correct (ord : Grid → List Nat)
    (hperm : ∀ g : Grid, (ord g).Perm [1, 2, 3, 4, 5, 6, 7, 8, 9])
    (g0 : Grid) (h0 : ∀ r c : Fin 9, g0 r c = 0) :
    (fillGrid ord g0).1 = true ∧
    (∀ fuel, 82 ≤ fuel → fillGridF ord fuel g0 = fillGrid ord g0) ∧
    (∀ r, (rowList (fillGrid ord g0).2 r).Perm [1, 2, 3, 4, 5, 6, 7, 8, 9]) ∧
    (∀ c, (colList (fillGrid ord g0).2 c).Perm [1, 2, 3, 4, 5, 6, 7, 8, 9]) ∧
    (∀ br bc, (blockList (fillGrid ord g0).2 br bc).Perm
      [1, 2, 3, 4, 5, 6, 7, 8, 9]) := by
  have hz : numZeros g0 = 81 := numZeros_of_allZero h0
  have hext : Extends g0 solGrid := fun r c h => absurd (h0 r c) h
  have hsucc : (fillGrid ord g0).1 = true :=
    fillGridF_complete hperm solGrid_ok solGrid_complete 82 g0 (by omega)
      hext
  have hOk0 : Ok g0 := by
    have : g0 = emptyGrid := funext fun r => funext fun c => h0 r c
    rw [this]
    exact ok_emptyGrid
  have hord : ∀ g : Grid, ∀ n ∈ ord g, n ≤ 9 := fun g n hn =>
    le_nine_of_mem n ((hperm g).mem_iff.mp hn)
  obtain ⟨hOk', hComp'⟩ := fillGridF_sound hord 82 g0 hOk0 hsucc
  refine ⟨hsucc, ?_, ?_, ?_, ?_⟩
  · intro fuel hfuel
    exact fillGridF_det ord fuel 82 g0 (by omega) (by omega)
  · exact rowList_perm hOk' hComp'
  · exact colList_perm hOk' hComp'
  · exact fun br bc => blockList_perm hOk' hComp' br bc

/-- Witness for C1 at the identity shuffle oracle and the all-zero grid. -/
theorem fillGrid_allZero_correct_witness :
    (fillGrid (fun _ => [1, 2, 3, 4, 5, 6, 7, 8, 9]) emptyGrid).1 = true :=
  (fillGrid_allZero_correct (fun _ => [1, 2, 3, 4, 5, 6, 7, 8, 9])
    (fun _ => List.Perm.refl _) emptyGrid (fun _ _ => rfl)).1

/-- C10: `fillGrid` never changes a cell that was non-zero on entry, and a
failing call leaves the grid exactly as it was (failure is atomic). -/
theorem fillGrid_frame (ord : Grid → List Nat) (g : Grid) :
    ((fillGrid ord g).1 = false → (fillGrid ord g).2 = g) ∧
    (∀ r c : Fin 9, g r c ≠ 0 → (fillGrid ord g).2 r c = g r c) :=
  fillGridF_frames ord 82 g

/-- A grid whose only empty cell `(0,0)` admits no digit: row 0 holds
1..8 and column 0 holds 9, so the search fails immediately. -/
def failGrid : Grid :=
  fun r c =>
    if r.val = 0 then c.val
    else if r.val = 1 ∧ c.val = 0 then 9
    else 5

/-- Witness for C10: on `failGrid` the search returns false and restores
the grid, and the non-zero cell `(1,0)` keeps its value. -/
theorem fillGrid_frame_witness :
    ((fillGrid (fun _ => [1, 2, 3, 4, 5, 6, 7, 8, 9]) failGrid).1 = false ∧
      (fillGrid (fun _ => [1, 2, 3, 4, 5, 6, 7, 8, 9]) failGrid).2 =
        failGrid) ∧
    (failGrid 1 0 ≠ 0 ∧
      (fillGrid (fun _ => [1, 2, 3, 4, 5, 6, 7, 8, 9]) failGrid).2 1 0 =
        failGrid 1 0) := by
  have h := fillGrid_frame (fun _ => [1, 2, 3, 4, 5, 6, 7, 8, 9]) failGrid
  have hfalse : (fillGrid (fun _ => [1, 2, 3, 4, 5, 6, 7, 8, 9])
      failGrid).1 = false := by decide
  exact ⟨⟨hfalse, h.1 hfalse⟩, ⟨by decide, h.2 1 0 (by decide)⟩⟩

/-! ### Session state: board cells, difficulty, history -/

/-- The five difficulty levels. -/
inductive Difficulty
  | tutorial
  | facil
  | medio
  | dificil
  | expert
deriving DecidableEq

/-- Source `difficultySettings`: cells removed per difficulty. -/
def difficultySettings : Difficulty → Nat
  | .tutorial => 10
  | .facil => 30
  | .medio => 40
  | .dificil => 50
  | .expert => 64

/-- Source `hintsSettings`: hint budget per difficulty. -/
def hintsSettings : Difficulty → Nat
  | .tutorial => 7
  | .facil => 5
  | .medio => 3
  | .dificil => 1
  | .expert => 0

/-- A board cell: the typed `Cell` of the source. -/
structure Cell where
  value : Nat
  isFixed : Bool
deriving DecidableEq

/-- A history record (`HistoryEntry` of the source).  `hintsUsed` is an
integer because the source computes it by JS subtraction. -/
structure HistoryEntry where
  id : String
  difficulty : Difficulty
  time : Nat
  hintsUsed : Int
  date : String
  puzzleHash : String
deriving DecidableEq

/-- The reactive state of the component.  `timerRunning` models whether
`timerInterval` is non-null. -/
structure GameState where
  board : Fin 9 → Fin 9 → Cell
  solution : Grid
  showModal : Bool
  showGiveUpModal : Bool
  showVictoryModal : Bool
  hasGivenUp : Bool
  selectedDifficulty : Difficulty
  gameStarted : Bool
  isPaused : Bool
  elapsedTime : Nat
  hintsRemaining : Nat
  gameHistory : List HistoryEntry
  currentPuzzleHash : String
  timerRunning : Bool

/-- Write one cell of the board matrix. -/
def setBoardCell (b : Fin 9 → Fin 9 → Cell) (r c : Fin 9) (cell : Cell) :
    Fin 9 → Fin 9 → Cell :=
  fun r' c' => if r' = r ∧ c' = c then cell else b r' c'

/-- The spec's Playing machine state: started, not paused, not won, not
given up. -/
def isPlaying (s : GameState) : Prop :=
  s.gameStarted = true ∧ s.isPaused = false ∧
  s.showVictoryModal = false ∧ s.hasGivenUp = false

/-- Source `saveHistory`: prepend the entry and cap the list at the 50 most
recent entries. -/
def saveHistory (entry : HistoryEntry) (h : List HistoryEntry) :
    List HistoryEntry :=
  let h' := entry :: h
  if 50 < h'.length then h'.take 50 else h'

theorem saveHistory_eq_take (entry : HistoryEntry)
    (h : List HistoryEntry) : saveHistory entry h = (entry :: h).take 50 := by
  unfold saveHistory
  simp only []
  split_ifs with h50
  · rfl
  · rw [List.take_of_length_le]
    omega

/-- Source `hashPuzzle`: row-major concatenation of the decimal digits. -/
def hashPuzzle (puzzle : Grid) : String :=
  String.join ((List.finRange 9).map fun r =>
    String.join ((List.finRange 9).map fun c => Nat.repr (puzzle r c)))

/-- Source `loadHistory`: read the stored string and parse it.  `stored = none`
models `localStorage.getItem` returning null; an empty string is falsy in
JS, so it is also skipped.  `JSON.parse` is the external parser; a parse
exception propagates (there is no try/catch in the source). -/
def loadHistory (stored : Option String)
    (parse : String → Except String (List HistoryEntry)) :
    Except String (List HistoryEntry) :=
  match stored with
  | none => Except.ok []
  | some str => if str = "" then Except.ok [] else parse str

/-! ### `checkVictory` -/

/-- First loop of `checkVictory`: some cell is still empty. -/
def boardHasEmpty (s : GameState) : Bool :=
  allCells.any fun p => (s.board p.1 p.2).value == 0

/-- Second loop of `checkVictory`: some cell differs from the solution. -/
def boardMismatch (s : GameState) : Bool :=
  allCells.any fun p => (s.board p.1 p.2).value != s.solution p.1 p.2

/-- The history entry built on victory. -/
def mkVictoryEntry (nowId nowDate : String) (s : GameState) : HistoryEntry :=
  { id := nowId
    difficulty := s.selectedDifficulty
    time := s.elapsedTime
    hintsUsed := (hintsSettings s.selectedDifficulty : Int) -
      (s.hintsRemaining : Int)
    date := nowDate
    puzzleHash := s.currentPuzzleHash }

/-- Source `checkVictory`: if any cell is empty or wrong, return unchanged;
otherwise show the victory modal, stop the timer and save a history
entry.  `nowId`/`nowDate` stand for `Date.now()` and the locale date
string. -/
def checkVictory (nowId nowDate : String) (s : GameState) : GameState :=
  if boardHasEmpty s then s
  else if boardMismatch s then s
  else
    { s with
        showVictoryModal := true
        timerRunning := false
        gameHistory :=
          saveHistory (mkVictoryEntry nowId nowDate s) s.gameHistory }

/-- The winning condition: all 81 cells non-zero and equal to the
solution. -/
def Winning (s : GameState) : Prop :=
  ∀ r c : Fin 9, (s.board r c).value ≠ 0 ∧
    (s.board r c).value = s.solution r c

instance (s : GameState) : Decidable (Winning s) := by
  unfold Winning; infer_instance

theorem boardHasEmpty_false_iff (s : GameState) :
    boardHasEmpty s = false ↔ ∀ r c : Fin 9, (s.board r c).value ≠ 0 := by
  rw [boardHasEmpty, List.any_eq_false]
  constructor
  · intro h r c
    have := h (r, c) (mem_allCells (r, c))
    simpa using this
  · intro h p _
    simpa using h p.1 p.2

theorem boardMismatch_false_iff (s : GameState) :
    boardMismatch s = false ↔
      ∀ r c : Fin 9, (s.board r c).value = s.solution r c := by
  rw [boardMismatch, List.any_eq_false]
  constructor
  · intro h r c
    have := h (r, c) (mem_allCells (r, c))
    simpa using this
  · intro h p _
    simpa using h p.1 p.2

theorem winning_iff (s : GameState) :
    Winning s ↔ boardHasEmpty s = false ∧ boardMismatch s = false := by
  rw [boardHasEmpty_false_iff, boardMismatch_false_iff]
  constructor
  · intro h
    exact ⟨fun r c => (h r c).1, fun r c => (h r c).2⟩
  · intro h r c
    exact ⟨h.1 r c, h.2 r c⟩

/-! ### `updateCell`, `useHint`, give-up -/

/-- Source `updateCell`: the input handler.  `value` is the parsed integer
(`parseInt(...) || 0`).  The guard requires the cell to be non-fixed and
the value in `[0,9]`; the handler does not consult the machine state. -/
def updateCell (nowId nowDate : String) (row col : Fin 9) (value : Int)
    (s : GameState) : GameState :=
  if (s.board row col).isFixed = false ∧ 0 ≤ value ∧ value ≤ 9 then
    checkVictory nowId nowDate
      { s with
          board := setBoardCell s.board row col
            { value := value.toNat, isFixed := (s.board row col).isFixed } }
  else s

/-- The row-major list of cells that are non-fixed and empty. -/
def emptyCellsList (s : GameState) : List (Fin 9 × Fin 9) :=
  allCells.filter fun p =>
    !(s.board p.1 p.2).isFixed && ((s.board p.1 p.2).value == 0)

/-- Source `useHint`: `k` is the random index into the eligible-cell list (the
source draws it uniformly below the list length; an out-of-range `k`
falls into the defensive `if (!emptyCell) return` branch). -/
def useHint (k : Nat) (s : GameState) : GameState :=
  if s.hintsRemaining = 0 then s
  else if (emptyCellsList s).length = 0 then s
  else
    match (emptyCellsList s).get? k with
    | none => s
    | some (row, col) =>
      { s with
          board := setBoardCell s.board row col
            { value := s.solution row col, isFixed := true }
          hintsRemaining := s.hintsRemaining - 1 }

/-- Source `askGiveUp`: open the confirmation modal and stop the timer. -/
def askGiveUp (s : GameState) : GameState :=
  { s with showGiveUpModal := true, timerRunning := false }

/-- Source `confirmGiveUp`: close the modal, flag the give-up and reveal the
whole solution as fixed cells. -/
def confirmGiveUp (s : GameState) : GameState :=
  { s with
      showGiveUpModal := false
      hasGivenUp := true
      board := fun r c => { value := s.solution r c, isFixed := true } }

/-! ### `removeNumbers` -/

/-- Fuel-indexed `removeNumbers` loop.  `picks` is the stream of random
`(row, col)` draws, `i` the number of draws consumed, `removed` the
counter; a `none` result means the fuel ran out with the loop still
running. -/
def removeNumbersF (picks : Nat → Fin 9 × Fin 9) (count : Nat) :
    Nat → Nat → Nat → Grid → Option Grid
  | 0, _, _, _ => none
  | fuel + 1, i, removed, g =>
    if removed < count then
      if g (picks i).1 (picks i).2 ≠ 0 then
        removeNumbersF picks count fuel (i + 1) (removed + 1)
          (setCell g (picks i).1 (picks i).2 0)
      else removeNumbersF picks count fuel (i + 1) removed g
    else some g

/-- Number of distinct cells among the first `n` picks. -/
def distinctPicks (picks : Nat → Fin 9 × Fin 9) (n : Nat) : Nat :=
  ((Finset.range n).image picks).card

/-! ### Claim C2: `checkVictory` -/

theorem checkVictory_of_winning (nowId nowDate : String) {s : GameState}
    (hw : Winning s) :
    checkVictory nowId nowDate s =
      { s with
          showVictoryModal := true
          timerRunning := false
          gameHistory :=
            (mkVictoryEntry nowId nowDate s :: s.gameHistory).take 50 } := by
  obtain ⟨he, hm⟩ := (winning_iff s).mp hw
  unfold checkVictory
  rw [if_neg (by simp [he]), if_neg (by simp [hm]), saveHistory_eq_take]

theorem checkVictory_of_not_winning (nowId nowDate : String)
    {s : GameState} (hnw : ¬Winning s) :
    checkVictory nowId nowDate s = s := by
  by_cases hbe : boardHasEmpty s = true
  · unfold checkVictory
    rw [if_pos hbe]
  · have hbe' : boardHasEmpty s = false := by simpa using hbe
    by_cases hbm : boardMismatch s = true
    · unfold checkVictory
      rw [if_neg (by simp [hbe']), if_pos hbm]
    · exact absurd ((winning_iff s).mpr ⟨hbe', by simpa using hbm⟩) hnw

/-- C2: `checkVictory` transitions to Won (victory modal shown, timer
stopped) and prepends exactly one history entry — id and date from the
clock, the difficulty, the elapsed time, `hintsUsed` as budget minus
remaining, and the current fingerprint, capped at the 50 most recent —
iff every cell is filled and matches the solution; otherwise it returns
the state unchanged, so repeated calls mutate nothing. -/
theorem checkVictory_spec (nowId nowDate : String) (s : GameState) :
    (Winning s →
      checkVictory nowId nowDate s =
        { s with
            showVictoryModal := true
            timerRunning := false
            gameHistory :=
              ({ id := nowId
                 difficulty := s.selectedDifficulty
                 time := s.elapsedTime
                 hintsUsed := (hintsSettings s.selectedDifficulty : Int) -
                   (s.hintsRemaining : Int)
                 date := nowDate
                 puzzleHash := s.currentPuzzleHash } ::
                s.gameHistory).take 50 }) ∧
    (¬Winning s → checkVictory nowId nowDate s = s) ∧
    (¬Winning s → ∀ nowId' nowDate' : String,
      checkVictory nowId' nowDate'
        (checkVictory nowId nowDate s) = s) := by
  refine ⟨?_, ?_, ?_⟩
  · intro hw
    exact checkVictory_of_winning nowId nowDate hw
  · intro hnw
    exact checkVictory_of_not_winning nowId nowDate hnw
  · intro hnw nowId' nowDate'
    rw [checkVictory_of_not_winning nowId nowDate hnw,
      checkVictory_of_not_winning nowId' nowDate' hnw]

/-- A fully and correctly filled session state. -/
def winState : GameState :=
  { board := fun r c => { value := solGrid r c, isFixed := true }
    solution := solGrid
    showModal := false
    showGiveUpModal := false
    showVictoryModal := false
    hasGivenUp := false
    selectedDifficulty := Difficulty.tutorial
    gameStarted := true
    isPaused := false
    elapsedTime := 42
    hintsRemaining := 5
    gameHistory := []
    currentPuzzleHash := "h"
    timerRunning := true }

/-- State `winState` with the cell `(0,0)` still empty and editable. -/
def loseState : GameState :=
  { winState with
      board := fun r c =>
        if r = 0 ∧ c = 0 then { value := 0, isFixed := false }
        else { value := solGrid r c, isFixed := true } }

/-- Witness for C2 at a winning and at a non-winning state. -/
theorem checkVictory_spec_witness :
    (checkVictory "id0" "date0" winState).showVictoryModal = true ∧
    (checkVictory "id0" "date0" winState).gameHistory.length = 1 ∧
    checkVictory "id0" "date0" loseState = loseState := by
  refine ⟨?_, ?_, ?_⟩
  · rw [(checkVictory_spec "id0" "date0" winState).1 (by decide)]
  · rw [(checkVictory_spec "id0" "date0" winState).1 (by decide)]
    rfl
  · exact (checkVictory_spec "id0" "date0" loseState).2.1 (by decide)

/-! ### Claim C8: give up -/

/-- C8: after `askGiveUp` then `confirmGiveUp`, every board cell carries
the solution value and is fixed, the timer is stopped, and the history is
untouched. -/
theorem giveUp_spec (s : GameState) :
    (∀ r c : Fin 9, (confirmGiveUp (askGiveUp s)).board r c =
      { value := s.solution r c, isFixed := true }) ∧
    (confirmGiveUp (askGiveUp s)).timerRunning = false ∧
    (confirmGiveUp (askGiveUp s)).gameHistory = s.gameHistory :=
  ⟨fun _ _ => rfl, rfl, rfl⟩

/-! ### Claim C5: loading history -/

/-- A parser that always fails, standing for `JSON.parse` on malformed
input. -/
def badParse : String → Except String (List HistoryEntry) :=
  fun _ => Except.error "SyntaxError"

/-- C5 counterexample: with a stored but unparseable value the load
propagates the parse error; it does not return the empty history. -/
theorem loadHistory_counterexample :
    loadHistory (some "not-json") badParse = Except.error "SyntaxError" ∧
    (Except.error "SyntaxError" :
      Except String (List HistoryEntry)) ≠ Except.ok [] :=
  ⟨rfl, fun h => Except.noConfusion h⟩

/-- C5 amended: an absent (or empty, hence JS-falsy) stored value loads
as the empty history, but when a stored string is present the result of
the parser is propagated unchanged — including its error. -/
theorem loadHistory_spec
    (parse : String → Except String (List HistoryEntry)) :
    loadHistory none parse = Except.ok [] ∧
    loadHistory (some "") parse = Except.ok [] ∧
    (∀ str e, str ≠ "" → parse str = Except.error e →
      loadHistory (some str) parse = Except.error e) ∧
    (∀ str h, str ≠ "" → parse str = Except.ok h →
      loadHistory (some str) parse = Except.ok h) := by
  refine ⟨rfl, rfl, ?_, ?_⟩
  · intro str e hne hp
    show (if str = "" then (Except.ok [] :
      Except String (List HistoryEntry)) else parse str) = Except.error e
    rw [if_neg hne]
    exact hp
  · intro str h hne hp
    show (if str = "" then (Except.ok [] :
      Except String (List HistoryEntry)) else parse str) = Except.ok h
    rw [if_neg hne]
    exact hp

/-- Witness for C5 (amended) on a failing parse. -/
theorem loadHistory_spec_witness :
    loadHistory (some "x") badParse = Except.error "SyntaxError" :=
  (loadHistory_spec badParse).2.2.1 "x" "SyntaxError" (by decide) rfl

/-! ### Claim C6: `updateCell` -/

instance (s : GameState) : Decidable (isPlaying s) := by
  unfold isPlaying; infer_instance

/-- A paused session with two editable empty cells. -/
def pausedState : GameState :=
  { board := fun r c =>
      if (r = 0 ∧ c = 0) ∨ (r = 0 ∧ c = 1) then
        { value := 0, isFixed := false }
      else { value := solGrid r c, isFixed := true }
    solution := solGrid
    showModal := false
    showGiveUpModal := false
    showVictoryModal := false
    hasGivenUp := false
    selectedDifficulty := Difficulty.medio
    gameStarted := true
    isPaused := true
    elapsedTime := 10
    hintsRemaining := 3
    gameHistory := []
    currentPuzzleHash := "p"
    timerRunning := false }

/-- C6 counterexample: the handler does not consult the machine state —
in a paused (hence non-Playing) session an edit of an editable cell goes
through and mutates the board. -/
theorem updateCell_counterexample :
    ¬ isPlaying pausedState ∧
    ((updateCell "i" "d" 0 0 5 pausedState).board 0 0).value = 5 ∧
    (pausedState.board 0 0).value = 0 := by
  refine ⟨by decide, by decide, rfl⟩

/-- C6 amended: an edit is silently ignored iff the target cell is fixed
or the value lies outside `[0,9]`; otherwise — regardless of the machine
state — the cell is overwritten and the victory check runs.  (The UI
hides or disables inputs outside Playing, but the handler itself does not
check the session state.) -/
theorem updateCell_spec (nowId nowDate : String) (row col : Fin 9)
    (v : Int) (s : GameState) :
    ((s.board row col).isFixed = true ∨ v < 0 ∨ 9 < v →
      updateCell nowId nowDate row col v s = s) ∧
    ((s.board row col).isFixed = false → 0 ≤ v → v ≤ 9 →
      updateCell nowId nowDate row col v s =
        checkVictory nowId nowDate
          { s with
              board :=
                setBoardCell s.board row col (Cell.mk v.toNat false) }) := by
  constructor
  · intro hbad
    unfold updateCell
    rw [if_neg]
    rintro ⟨hf, h0, h9⟩
    rcases hbad with hb | hb | hb
    · rw [hf] at hb
      exact Bool.false_ne_true hb
    · omega
    · omega
  · intro hf h0 h9
    unfold updateCell
    rw [if_pos ⟨hf, h0, h9⟩, hf]

/-- Witness for C6 (amended): a fixed cell and an out-of-range value are
no-ops; an in-range edit of an editable cell mutates and checks. -/
theorem updateCell_spec_witness :
    updateCell "i" "d" 1 1 3 winState = winState ∧
    updateCell "i" "d" 0 1 (-1) pausedState = pausedState ∧
    updateCell "i" "d" 0 0 5 pausedState =
      checkVictory "i" "d"
        { pausedState with
            board :=
              setBoardCell pausedState.board 0 0
                (Cell.mk (5 : Int).toNat false) } := by
  refine ⟨?_, ?_, ?_⟩
  · exact (updateCell_spec "i" "d" 1 1 3 winState).1 (Or.inl (by decide))
  · exact (updateCell_spec "i" "d" 0 1 (-1) pausedState).1
      (Or.inr (Or.inl (by decide)))
  · exact (updateCell_spec "i" "d" 0 0 5 pausedState).2 (by decide)
      (by decide) (by decide)

/-! ### Claim C4: `useHint` -/

theorem emptyCellsList_mem {s : GameState} {row col : Fin 9}
    (h : (row, col) ∈ emptyCellsList s) :
    (s.board row col).isFixed = false ∧ (s.board row col).value = 0 := by
  have := (List.mem_filter.mp h).2
  simpa using this

/-- C4: `useHint` is a no-op when the hint budget is zero or no cell is
both non-fixed and empty; otherwise, for any drawn index into the
eligible-cell list, it reveals exactly that cell (which was non-fixed and
empty) with the solution value, marks it fixed, and decrements the budget
by exactly one — never below zero, since it only fires on a positive
budget. -/
theorem useHint_spec (k : Nat) (s : GameState) :
    (s.hintsRemaining = 0 → useHint k s = s) ∧
    (emptyCellsList s = [] → useHint k s = s) ∧
    (∀ row col : Fin 9, 0 < s.hintsRemaining →
      (emptyCellsList s).get? k = some (row, col) →
      (s.board row col).isFixed = false ∧
      (s.board row col).value = 0 ∧
      useHint k s =
        { s with
            board :=
              setBoardCell s.board row col
                (Cell.mk (s.solution row col) true)
            hintsRemaining := s.hintsRemaining - 1 } ∧
      (useHint k s).hintsRemaining + 1 = s.hintsRemaining) := by
  refine ⟨?_, ?_, ?_⟩
  · intro h
    unfold useHint
    rw [if_pos h]
  · intro h
    unfold useHint
    by_cases h0 : s.hintsRemaining = 0
    · rw [if_pos h0]
    · rw [if_neg h0, if_pos (by rw [h]; rfl)]
  · intro row col hpos hget
    have h0 : ¬s.hintsRemaining = 0 := by omega
    have hmem : (row, col) ∈ emptyCellsList s := List.get?_mem hget
    have hlen : ¬(emptyCellsList s).length = 0 := by
      intro hl
      rw [List.length_eq_zero] at hl
      rw [hl] at hmem
      exact absurd hmem (List.not_mem_nil (row, col))
    obtain ⟨hfix, hval⟩ := emptyCellsList_mem hmem
    refine ⟨hfix, hval, ?_, ?_⟩
    · unfold useHint
      rw [if_neg h0, if_neg hlen, hget]
    · have : useHint k s =
          { s with
              board :=
                setBoardCell s.board row col
                  (Cell.mk (s.solution row col) true)
              hintsRemaining := s.hintsRemaining - 1 } := by
        unfold useHint
        rw [if_neg h0, if_neg hlen, hget]
      rw [this]
      show s.hintsRemaining - 1 + 1 = s.hintsRemaining
      omega

/-- Witness for C4: a state with one hintable cell, and one with an
exhausted budget. -/
theorem useHint_spec_witness :
    ((useHint 0 loseState).board 0 0).value = solGrid 0 0 ∧
    ((useHint 0 loseState).board 0 0).isFixed = true ∧
    (useHint 0 loseState).hintsRemaining + 1 = loseState.hintsRemaining ∧
    useHint 0 { winState with hintsRemaining := 0 } =
      { winState with hintsRemaining := 0 } := by
  have h := (useHint_spec 0 loseState).2.2 0 0 (by decide) (by decide)
  refine ⟨?_, ?_, h.2.2.2, (useHint_spec 0
    { winState with hintsRemaining := 0 }).1 rfl⟩
  · rw [h.2.2.1]
    rfl
  · rw [h.2.2.1]
    rfl

/-! ### Claims C3 and C7: `removeNumbers` -/

theorem removeNumbersF_succ (picks : Nat → Fin 9 × Fin 9)
    (count fuel i removed : Nat) (g : Grid) :
    removeNumbersF picks count (fuel + 1) i removed g =
      if removed < count then
        if g (picks i).1 (picks i).2 ≠ 0 then
          removeNumbersF picks count fuel (i + 1) (removed + 1)
            (setCell g (picks i).1 (picks i).2 0)
        else removeNumbersF picks count fuel (i + 1) removed g
      else some g := rfl

theorem numZeros_setCell_zero {g : Grid} {r c : Fin 9}
    (h : g r c ≠ 0) : numZeros (setCell g r c 0) = numZeros g + 1 := by
  unfold numZeros
  have hset : (Finset.univ.filter
      fun p : Fin 9 × Fin 9 => setCell g r c 0 p.1 p.2 = 0) =
      insert (r, c)
        (Finset.univ.filter fun p : Fin 9 × Fin 9 => g p.1 p.2 = 0) := by
    ext ⟨pr, pc⟩
    simp only [Finset.mem_filter, Finset.mem_insert, Finset.mem_univ,
      true_and, setCell_app, Prod.mk.injEq]
    constructor
    · intro hz
      split_ifs at hz with he
      · exact Or.inl he
      · exact Or.inr hz
    · intro hz
      rcases hz with he | hz
      · rw [if_pos he]
      · split_ifs with he
        · rfl
        · exact hz
  rw [hset, Finset.card_insert_of_not_mem (by simp [h])]

theorem numZeros_complete {g : Grid} (h : Complete g) : numZeros g = 0 := by
  unfold numZeros
  rw [Finset.card_eq_zero]
  ext ⟨r, c⟩
  simp [h r c]

/-- Number of filled cells of the grid. -/
def numNonZeros (g : Grid) : Nat :=
  (Finset.univ.filter fun p : Fin 9 × Fin 9 => g p.1 p.2 ≠ 0).card

theorem numZeros_add_numNonZeros (g : Grid) :
    numZeros g + numNonZeros g = 81 := by
  unfold numZeros numNonZeros
  have h := Finset.filter_card_add_filter_neg_card_eq_card
    (s := (Finset.univ : Finset (Fin 9 × Fin 9)))
    (p := fun p : Fin 9 × Fin 9 => g p.1 p.2 = 0)
  simp only [ne_eq]
  rw [h]
  decide

theorem removeNumbersF_count (picks : Nat → Fin 9 × Fin 9) (count : Nat)
    (g₀ : Grid) :
    ∀ fuel i removed : Nat, ∀ g g' : Grid, removed ≤ count →
      numZeros g = removed →
      (∀ r c : Fin 9, g r c ≠ 0 → g r c = g₀ r c) →
      removeNumbersF picks count fuel i removed g = some g' →
      numZeros g' = count ∧
      (∀ r c : Fin 9, g' r c ≠ 0 → g' r c = g₀ r c) := by
  intro fuel
  induction fuel with
  | zero =>
    intro i removed g g' _ _ _ h
    exact absurd h (by simp [removeNumbersF])
  | succ fuel ih =>
    intro i removed g g' hle hz hpres hrun
    rw [removeNumbersF_succ] at hrun
    by_cases hlt : removed < count
    · rw [if_pos hlt] at hrun
      by_cases hnz : g (picks i).1 (picks i).2 ≠ 0
      · rw [if_pos hnz] at hrun
        refine ih (i + 1) (removed + 1) _ g' (by omega) ?_ ?_ hrun
        · rw [numZeros_setCell_zero hnz, hz]
        · intro r c hval
          by_cases he : r = (picks i).1 ∧ c = (picks i).2
          · exfalso
            rw [setCell_app, if_pos he] at hval
            exact hval rfl
          · rw [setCell_app, if_neg he] at hval ⊢
            exact hpres r c hval
      · rw [if_neg hnz] at hrun
        exact ih (i + 1) removed g g' hle hz hpres hrun
    · rw [if_neg hlt] at hrun
      obtain rfl : g = g' := Option.some.inj hrun
      have : removed = count := by omega
      exact ⟨by omega, hpres⟩

/-- C3: whenever the carve loop finishes (for any pick sequence and any
sufficient fuel) on a complete grid, the result has exactly `count`
zeroed cells, hence `81 - count` non-zero cells, and every non-zero cell
keeps its original value. -/
theorem removeNumbers_spec (picks : Nat → Fin 9 × Fin 9) (count : Nat)
    (g : Grid) (fuel : Nat) (g' : Grid) (hComp : Complete g)
    (hcount : count ≤ 81)
    (hrun : removeNumbersF picks count fuel 0 0 g = some g') :
    numZeros g' = count ∧ numNonZeros g' = 81 - count ∧
    (∀ r c : Fin 9, g' r c ≠ 0 → g' r c = g r c) := by
  have hz0 : numZeros g = 0 := numZeros_complete hComp
  have h := removeNumbersF_count picks count g fuel 0 0 g g'
    (by omega) hz0 (fun _ _ _ => rfl) hrun
  refine ⟨h.1, ?_, h.2⟩
  have := numZeros_add_numNonZeros g'
  omega

/-- The completely filled all-ones grid (complete, though not a valid
Sudoku — `removeNumbers` never inspects validity). -/
def onesGrid : Grid := fun _ _ => 1

/-- A pick stream walking along row 0. -/
def picksRow : Nat → Fin 9 × Fin 9 :=
  fun i => (⟨0, by omega⟩, ⟨i % 9, Nat.mod_lt i (by omega)⟩)

/-- Witness for C3: carving two cells out of the all-ones grid. -/
theorem removeNumbers_spec_witness :
    numZeros (setCell (setCell onesGrid 0 0 0) 0 1 0) = 2 ∧
    numNonZeros (setCell (setCell onesGrid 0 0 0) 0 1 0) = 79 := by
  have h := removeNumbers_spec picksRow 2 onesGrid 3
    (setCell (setCell onesGrid 0 0 0) 0 1 0) (by decide) (by decide)
    (by decide)
  exact ⟨h.1, h.2.1⟩

/-- After the first removal, a pick stream stuck on `(0,0)` never makes
progress again. -/
theorem removeNumbersF_stuck :
    ∀ fuel i : Nat,
      removeNumbersF (fun _ => ((0 : Fin 9), (0 : Fin 9))) 2 fuel i 1
        (setCell onesGrid 0 0 0) = none := by
  intro fuel
  induction fuel with
  | zero => intro i; rfl
  | succ fuel ih =>
    intro i
    rw [removeNumbersF_succ, if_pos (by omega), if_neg (by decide)]
    exact ih (i + 1)

/-- C7 counterexample: the carve loop does *not* terminate for every
possible pick sequence — with all picks equal to `(0,0)` and `count = 2`
the loop runs forever on the (complete) all-ones grid, because a missed
pick does not shrink anything. -/
theorem removeNumbers_termination_counterexample :
    ¬ (∀ g : Grid, Complete g → ∀ count : Nat, count ≤ 81 →
        ∀ picks : Nat → Fin 9 × Fin 9,
          ∃ fuel g', removeNumbersF picks count fuel 0 0 g = some g') := by
  intro hclaim
  obtain ⟨fuel, g', hrun⟩ := hclaim onesGrid (by decide) 2 (by omega)
    (fun _ => (0, 0))
  have hnone : removeNumbersF (fun _ => ((0 : Fin 9), (0 : Fin 9)))
      2 fuel 0 0 onesGrid = none := by
    cases fuel with
    | zero => rfl
    | succ fuel =>
      rw [removeNumbersF_succ, if_pos (by omega), if_pos (by decide)]
      exact removeNumbersF_stuck fuel 1
  rw [hnone] at hrun
  exact Option.noConfusion hrun

theorem removeNumbersF_term_aux (picks : Nat → Fin 9 × Fin 9)
    (count : Nat) :
    ∀ M : Nat, ∀ i removed : Nat, ∀ g : Grid,
      (∀ r c : Fin 9, g r c = 0 ↔ (r, c) ∈ (Finset.range i).image picks) →
      removed = ((Finset.range i).image picks).card →
      count ≤ ((Finset.range (i + M)).image picks).card →
      ∃ g', removeNumbersF picks count (M + 1) i removed g = some g' := by
  intro M
  induction M with
  | zero =>
    intro i removed g _ hrem hcount
    refine ⟨g, ?_⟩
    rw [removeNumbersF_succ, if_neg]
    simp only [Nat.add_zero] at hcount
    omega
  | succ M ih =>
    intro i removed g hinv hrem hcount
    by_cases hlt : removed < count
    · rw [removeNumbersF_succ, if_pos hlt]
      have hidx : i + (M + 1) = (i + 1) + M := by omega
      rw [hidx] at hcount
      have himg : (Finset.range (i + 1)).image picks =
          insert (picks i) ((Finset.range i).image picks) := by
        rw [Finset.range_succ, Finset.image_insert]
      by_cases hz : g (picks i).1 (picks i).2 = 0
      · rw [if_neg (by simpa using hz)]
        have hmem : picks i ∈ (Finset.range i).image picks := by
          have := (hinv (picks i).1 (picks i).2).mp hz
          simpa using this
        refine ih (i + 1) removed g ?_ ?_ hcount
        · intro r c
          rw [hinv r c, himg, Finset.insert_eq_self.mpr hmem]
        · rw [hrem, himg, Finset.insert_eq_self.mpr hmem]
      · rw [if_pos (by simpa using hz)]
        have hnotmem : picks i ∉ (Finset.range i).image picks := by
          intro hmem
          exact hz ((hinv (picks i).1 (picks i).2).mpr (by simpa using hmem))
        refine ih (i + 1) (removed + 1)
          (setCell g (picks i).1 (picks i).2 0) ?_ ?_ hcount
        · intro r c
          rw [setCell_app, himg]
          by_cases he : r = (picks i).1 ∧ c = (picks i).2
          · rw [if_pos he]
            have : (r, c) = picks i := by
              rw [he.1, he.2]
            simp [this]
          · rw [if_neg he, hinv r c, Finset.mem_insert]
            constructor
            · exact fun h => Or.inr h
            · intro h
              rcases h with h | h
              · exact absurd ⟨congrArg Prod.fst h, congrArg Prod.snd h⟩ he
              · exact h
        · rw [himg, Finset.card_insert_of_not_mem hnotmem, hrem]
    · exact ⟨g, by rw [removeNumbersF_succ, if_neg hlt]⟩

/-- C7 amended: the carve loop terminates for every pick sequence that
eventually covers at least `count` distinct cells (this holds with
probability 1 for uniform picks, but not for every sequence). -/
theorem removeNumbers_terminates (picks : Nat → Fin 9 × Fin 9)
    (count : Nat) (g : Grid) (hComp : Complete g) (hcount : count ≤ 81)
    (hN : ∃ N, count ≤ distinctPicks picks N) :
    ∃ fuel g', removeNumbersF picks count fuel 0 0 g = some g' := by
  obtain ⟨N, hN⟩ := hN
  refine ⟨N + 1, ?_⟩
  apply removeNumbersF_term_aux picks count N 0 0 g
  · intro r c
    simp [hComp r c]
  · simp
  · simpa [distinctPicks] using hN

/-- Witness for C7 (amended): the row-walking pick stream covers two
distinct cells within two draws. -/
theorem removeNumbers_terminates_witness :
    ∃ fuel g', removeNumbersF picksRow 2 fuel 0 0 onesGrid = some g' :=
  removeNumbers_terminates picksRow 2 onesGrid (by decide) (by omega)
    ⟨2, by decide⟩

/-! ### Claim C9: `hashPuzzle` -/

/-- All 81 grid values in row-major order. -/
def flatCells (g : Grid) : List Nat :=
  ((List.finRange 9).map fun r => (List.finRange 9).map (g r)).flatten

theorem repr_digit {n : Nat} (h : n ≤ 9) :
    Nat.repr n = String.mk [Nat.digitChar n] := by
  interval_cases n <;> rfl

theorem string_foldl_data (l : List String) :
    ∀ acc : String, (l.foldl (fun a b => a ++ b) acc).data =
      acc.data ++ (l.map String.data).flatten := by
  induction l with
  | nil => intro acc; simp
  | cons x xs ih =>
    intro acc
    rw [List.foldl_cons, ih (acc ++ x), List.map_cons, List.flatten_cons,
      String.data_append, List.append_assoc]

theorem string_join_data (l : List String) :
    (String.join l).data = (l.map String.data).flatten := by
  show (l.foldl (fun a b => a ++ b) "").data = _
  rw [string_foldl_data]
  rfl

theorem join_map_singleton {α β : Type} (f : α → β) (l : List α) :
    (l.map fun x => [f x]).flatten = l.map f := by
  induction l <;> simp_all

theorem join_strings_digits (l : List Nat) (h : ∀ x ∈ l, x ≤ 9) :
    (String.join (l.map Nat.repr)).data = l.map Nat.digitChar := by
  rw [string_join_data, List.map_map]
  have hmap : l.map (String.data ∘ Nat.repr) =
      l.map fun n => [Nat.digitChar n] :=
    List.map_congr_left fun n hn =>
      congrArg String.data (repr_digit (h n hn))
  rw [hmap, join_map_singleton]

theorem hashPuzzle_data (g : Grid) (hb : ∀ r c : Fin 9, g r c ≤ 9) :
    (hashPuzzle g).data = (flatCells g).map Nat.digitChar := by
  unfold hashPuzzle flatCells
  rw [string_join_data, List.map_map]
  have hrows : (List.finRange 9).map
      (String.data ∘ fun r =>
        String.join ((List.finRange 9).map fun c => Nat.repr (g r c))) =
      (List.finRange 9).map fun r =>
        List.map Nat.digitChar ((List.finRange 9).map (g r)) := by
    apply List.map_congr_left
    intro r _
    show (String.join (((List.finRange 9).map (g r)).map Nat.repr)).data = _
    apply join_strings_digits
    intro x hx
    obtain ⟨c, -, rfl⟩ := List.mem_map.mp hx
    exact hb r c
  rw [hrows, List.map_flatten]
  simp only [List.map_map]
  rfl

theorem digitChar_injOn : ∀ a b : Nat, a ≤ 9 → b ≤ 9 →
    Nat.digitChar a = Nat.digitChar b → a = b := by
  have hd : ∀ a b : Fin 10, Nat.digitChar a.val = Nat.digitChar b.val →
      a = b := by decide
  intro a b ha hb h
  have := hd ⟨a, by omega⟩ ⟨b, by omega⟩ h
  exact congrArg Fin.val this

theorem map_digitChar_inj :
    ∀ l₁ l₂ : List Nat, (∀ x ∈ l₁, x ≤ 9) → (∀ x ∈ l₂, x ≤ 9) →
      l₁.map Nat.digitChar = l₂.map Nat.digitChar → l₁ = l₂ := by
  intro l₁
  induction l₁ with
  | nil =>
    intro l₂ _ _ h
    cases l₂ with
    | nil => rfl
    | cons y ys => simp at h
  | cons x xs ih =>
    intro l₂ h1 h2 h
    cases l₂ with
    | nil => simp at h
    | cons y ys =>
      simp only [List.map_cons, List.cons.injEq] at h
      have hx : x = y := digitChar_injOn x y
        (h1 x (List.mem_cons_self x xs)) (h2 y (List.mem_cons_self y ys))
        h.1
      rw [hx, ih ys (fun a ha => h1 a (List.mem_cons_of_mem x ha))
        (fun a ha => h2 a (List.mem_cons_of_mem y ha)) h.2]

theorem flatCells_get (g : Grid) :
    ∀ r c : Fin 9, (flatCells g).get? (r.val * 9 + c.val) = some (g r c) := by
  intro r c
  fin_cases r <;> fin_cases c <;> rfl

theorem flatCells_le {g : Grid} (hb : ∀ r c : Fin 9, g r c ≤ 9) :
    ∀ x ∈ flatCells g, x ≤ 9 := by
  intro x hx
  rw [flatCells, List.mem_flatten] at hx
  obtain ⟨row, hrow, hxrow⟩ := hx
  obtain ⟨r, -, rfl⟩ := List.mem_map.mp hrow
  obtain ⟨c, -, rfl⟩ := List.mem_map.mp hxrow
  exact hb r c

/-- C9: `hashPuzzle` — the row-major concatenation of the cells' decimal
digits — is deterministic and injective on grids of digits 0..9: two
grids hash equal exactly when they are equal. -/
theorem hashPuzzle_spec (g₁ g₂ : Grid) (h1 : ∀ r c : Fin 9, g₁ r c ≤ 9)
    (h2 : ∀ r c : Fin 9, g₂ r c ≤ 9) :
    hashPuzzle g₁ = hashPuzzle g₂ ↔ g₁ = g₂ := by
  constructor
  · intro h
    have hdata := congrArg String.data h
    rw [hashPuzzle_data g₁ h1, hashPuzzle_data g₂ h2] at hdata
    have hcells : flatCells g₁ = flatCells g₂ :=
      map_digitChar_inj _ _ (flatCells_le h1) (flatCells_le h2) hdata
    funext r c
    have hg := congrArg (fun l => l.get? (r.val * 9 + c.val)) hcells
    simp only [flatCells_get] at hg
    exact Option.some.inj hg
  · intro h
    rw [h]

/-- Witness for C9: two different digit grids hash differently. -/
theorem hashPuzzle_spec_witness : hashPuzzle emptyGrid ≠ hashPuzzle solGrid :=
  fun h => absurd
    ((hashPuzzle_spec emptyGrid solGrid (by decide) (by decide)).mp h)
    (by decide)

end Sudoku
